import Mathlib

/-!
# Verification of the aetheric-engine deterministic simulation core

A shallow embedding, in Lean 4, of the components of the
`tungsten-protocol/aetheric-engine` repository that the specification's
claims are about:

* the normalized input data model (`src/core/input/event.rs`),
* the per-tick input state tracker (`src/core/input/state_tracker.rs`),
* the action mapper (`src/core/input/action_mapper.rs`),
* the type-partitioned message bus (`src/core/message_bus/messgae_bus.rs`),
* the scene manager and its stack transitions (`src/core/scene/scene_manager.rs`),
* the per-tick system-update phase (`src/core/globals/global_systems.rs`),
* the platform event collector (`src/core/platform_bridge/event_collector.rs`).

Rust `HashSet`s are modelled as `Finset`s, `HashMap`s as (optionally
partial) functions, `Vec`s as `List`s, and the `f32` mouse coordinates as
rationals (`ℚ`): the only arithmetic the code performs on them is exact
assignment and one subtraction per tick.  Stateful methods taking `&mut
self` become pure state-transformer functions.
-/

/-! ## Input data model (src/core/input/event.rs) -/

/-- Physical mouse button identifier (enum `MouseButton`). -/
inductive MouseButton where
  | Left
  | Right
  | Middle
  | Other
  deriving DecidableEq, Repr

/-- Physical keyboard key identifier (enum `KeyCode`). -/
inductive KeyCode where
  | Digit0 | Digit1 | Digit2 | Digit3 | Digit4
  | Digit5 | Digit6 | Digit7 | Digit8 | Digit9
  | KeyA | KeyB | KeyC | KeyD | KeyE | KeyF | KeyG | KeyH | KeyI
  | KeyJ | KeyK | KeyL | KeyM | KeyN | KeyO | KeyP | KeyQ | KeyR
  | KeyS | KeyT | KeyU | KeyV | KeyW | KeyX | KeyY | KeyZ
  | ArrowDown | ArrowLeft | ArrowRight | ArrowUp
  | Space | Enter | Escape | Tab | Backspace | Delete
  | Unidentified
  deriving DecidableEq, Repr

/-- Modifier key state (struct `Modifiers`): three independent flags. -/
structure Modifiers where
  shift : Bool
  ctrl : Bool
  alt : Bool
  deriving DecidableEq, Repr

namespace Modifiers

/-- Rust `Modifiers::NONE`. -/
def NONE : Modifiers := ⟨false, false, false⟩

/-- Rust `Modifiers::SHIFT`. -/
def SHIFT : Modifiers := ⟨true, false, false⟩

/-- Rust `Modifiers::CTRL`. -/
def CTRL : Modifiers := ⟨false, true, false⟩

/-- Rust `Modifiers::ALT`. -/
def ALT : Modifiers := ⟨false, false, true⟩

end Modifiers

/-- Low-level input event from the platform layer (enum `InputEvent`).
Coordinates are modelled as rationals in place of `f32`. -/
inductive InputEvent where
  | KeyDown (key : KeyCode) (modifiers : Modifiers)
  | KeyUp (key : KeyCode) (modifiers : Modifiers)
  | MouseButtonDown (button : MouseButton) (modifiers : Modifiers)
  | MouseButtonUp (button : MouseButton) (modifiers : Modifiers)
  | MouseMoved (x y : ℚ)
  | Unidentified
  deriving DecidableEq, Repr

/-! ## State tracker (src/core/input/state_tracker.rs) -/

/-- Low-level input state tracker (struct `StateTracker`): persistent
held state, per-tick delta sets, mouse position/delta and sticky
modifiers.  `HashSet` fields become `Finset`s; `(f32, f32)` pairs become
`ℚ × ℚ`. -/
structure StateTracker where
  keys_down : Finset KeyCode
  mouse_buttons_down : Finset MouseButton
  mouse_position : ℚ × ℚ
  modifiers : Modifiers
  keys_pressed_this_frame : Finset KeyCode
  keys_released_this_frame : Finset KeyCode
  mouse_buttons_pressed_this_frame : Finset MouseButton
  mouse_buttons_released_this_frame : Finset MouseButton
  mouse_delta : ℚ × ℚ
  last_mouse_position : ℚ × ℚ
  deriving DecidableEq

namespace StateTracker

/-- Rust `StateTracker::new()`: empty state. -/
def new : StateTracker where
  keys_down := ∅
  mouse_buttons_down := ∅
  mouse_position := (0, 0)
  modifiers := Modifiers.NONE
  keys_pressed_this_frame := ∅
  keys_released_this_frame := ∅
  mouse_buttons_pressed_this_frame := ∅
  mouse_buttons_released_this_frame := ∅
  mouse_delta := (0, 0)
  last_mouse_position := (0, 0)

/-- Rust `StateTracker::clear()`: empties the per-tick delta sets and
snapshots the current mouse position into `last_mouse_position`;
held state and modifiers persist. -/
def clear (t : StateTracker) : StateTracker :=
  { t with
    keys_pressed_this_frame := ∅
    keys_released_this_frame := ∅
    mouse_buttons_pressed_this_frame := ∅
    mouse_buttons_released_this_frame := ∅
    last_mouse_position := t.mouse_position }

/-- Rust `StateTracker::process_event()`: one event.  The `HashSet::insert`
(resp. `remove`) return value used by the source to gate the delta-set
update is modelled by the corresponding membership test. -/
def process_event (t : StateTracker) (event : InputEvent) : StateTracker :=
  match event with
  | .KeyDown key modifiers =>
      if key ∈ t.keys_down then
        { t with modifiers := modifiers }
      else
        { t with
          modifiers := modifiers
          keys_down := insert key t.keys_down
          keys_pressed_this_frame := insert key t.keys_pressed_this_frame }
  | .KeyUp key modifiers =>
      if key ∈ t.keys_down then
        { t with
          modifiers := modifiers
          keys_down := t.keys_down.erase key
          keys_released_this_frame := insert key t.keys_released_this_frame }
      else
        { t with modifiers := modifiers }
  | .MouseButtonDown button modifiers =>
      if button ∈ t.mouse_buttons_down then
        { t with modifiers := modifiers }
      else
        { t with
          modifiers := modifiers
          mouse_buttons_down := insert button t.mouse_buttons_down
          mouse_buttons_pressed_this_frame :=
            insert button t.mouse_buttons_pressed_this_frame }
  | .MouseButtonUp button modifiers =>
      if button ∈ t.mouse_buttons_down then
        { t with
          modifiers := modifiers
          mouse_buttons_down := t.mouse_buttons_down.erase button
          mouse_buttons_released_this_frame :=
            insert button t.mouse_buttons_released_this_frame }
      else
        { t with modifiers := modifiers }
  | .MouseMoved x y => { t with mouse_position := (x, y) }
  | .Unidentified => t

/-- Rust `StateTracker::process_events()`: a batch, in order. -/
def process_events (t : StateTracker) (events : List InputEvent) : StateTracker :=
  events.foldl process_event t

/-- Rust `StateTracker::finalize_frame()`: mouse delta = position − snapshot. -/
def finalize_frame (t : StateTracker) : StateTracker :=
  { t with
    mouse_delta :=
      (t.mouse_position.1 - t.last_mouse_position.1,
       t.mouse_position.2 - t.last_mouse_position.2) }

/-- One full tick of the tracker: `clear`, then the tick's event batch
(the concatenation of all batches processed that tick), then
`finalize_frame`. -/
def tick (t : StateTracker) (events : List InputEvent) : StateTracker :=
  (process_events t.clear events).finalize_frame

end StateTracker

/-! ## Action mapper (src/core/input/action.rs, action_mapper.rs) -/

/-- Identifies the active binding subset (enum `InputContext`):
`Primary` plus arbitrary numeric custom contexts (`u32` ids become `ℕ`). -/
inductive InputContext where
  | Primary
  | Custom (id : ℕ)
  deriving DecidableEq, Repr

/-- Maps input events to actions via (key/button, modifiers, context)
lookups (struct `ActionMapper<A>`).  The two `HashMap`s are modelled as
partial functions; `HashMap::insert` corresponds to a pointwise function
update, so last-write-wins rebinds are built into the model. -/
structure ActionMapper (A : Type) where
  key_bindings : KeyCode × Modifiers × InputContext → Option A
  mouse_bindings : MouseButton × Modifiers × InputContext → Option A
  current_context : InputContext

namespace ActionMapper

variable {A : Type}

/-- Rust `ActionMapper::map_key()`: exact `(key, modifiers, current_context)`
lookup. -/
def map_key (m : ActionMapper A) (key : KeyCode) (modifiers : Modifiers) :
    Option A :=
  m.key_bindings (key, modifiers, m.current_context)

/-- Rust `ActionMapper::map_button()`: exact `(button, modifiers,
current_context)` lookup. -/
def map_button (m : ActionMapper A) (btn : MouseButton) (modifiers : Modifiers) :
    Option A :=
  m.mouse_bindings (btn, modifiers, m.current_context)

/-- Rust `ActionMapper::map_event()`: only the two Down variants resolve. -/
def map_event (m : ActionMapper A) (event : InputEvent) : Option A :=
  match event with
  | .KeyDown key modifiers => m.map_key key modifiers
  | .MouseButtonDown button modifiers => m.map_button button modifiers
  | _ => none

end ActionMapper

/-! ## Message bus (src/core/message_bus/messgae_bus.rs)

The bus is type-partitioned: `HashMap<TypeId, Box<dyn MessageQueue>>` with
one `Vec<M>` per message type `M`.  `TypeId` is modelled by an arbitrary
type `κ` of tags with decidable equality and the per-type payload by a
family `V : κ → Type`; a `read` of an absent queue returns the empty
slice, so the map is modelled as a total function into lists that
defaults to `[]`. -/

/-- Type-partitioned multi-consumer message queue (struct `MessageBus`). -/
structure MessageBus (κ : Type) (V : κ → Type) where
  queues : (t : κ) → List (V t)

namespace MessageBus

variable {κ : Type} [DecidableEq κ] {V : κ → Type}

/-- Rust `MessageBus::new()`: every queue empty. -/
def new : MessageBus κ V := ⟨fun _ => []⟩

/-- Rust `MessageBus::push::<M>(msg)`: append to `M`'s queue (lazily created
queues and pre-existing ones behave identically in the list model). -/
def push (b : MessageBus κ V) (t : κ) (msg : V t) : MessageBus κ V :=
  ⟨Function.update b.queues t (b.queues t ++ [msg])⟩

/-- Rust `MessageBus::read::<M>()`: the current contents of `M`'s queue,
without mutation (`&self` in the source). -/
def read (b : MessageBus κ V) (t : κ) : List (V t) :=
  b.queues t

/-- Rust `MessageBus::count::<M>()`. -/
def count (b : MessageBus κ V) (t : κ) : ℕ :=
  (b.queues t).length

/-- Rust `MessageBus::clear::<M>()`: empties only `M`'s queue. -/
def clear (b : MessageBus κ V) (t : κ) : MessageBus κ V :=
  ⟨Function.update b.queues t []⟩

/-- Rust `MessageBus::clear_all()`: empties every queue. -/
def clear_all (_b : MessageBus κ V) : MessageBus κ V :=
  ⟨fun _ => []⟩

/-- The bus operations a system can perform between two reads of a
given type (reads themselves take `&self` and are the identity on the
state, so they need no constructor). -/
inductive BusOp (κ : Type) (V : κ → Type) where
  | push (t : κ) (msg : V t)
  | clear (t : κ)
  | clearAll

/-- Run one operation. -/
def applyOp (b : MessageBus κ V) : BusOp κ V → MessageBus κ V
  | .push t msg => b.push t msg
  | .clear t => b.clear t
  | .clearAll => b.clear_all

/-- Run a sequence of operations, oldest first. -/
def applyOps (b : MessageBus κ V) (ops : List (BusOp κ V)) : MessageBus κ V :=
  ops.foldl applyOp b

/-- The messages of type `t` pushed by a sequence of operations, in push
order. -/
def pushesOf (t : κ) : List (BusOp κ V) → List (V t)
  | [] => []
  | .push t' msg :: rest =>
      (if h : t' = t then [h ▸ msg] else []) ++ pushesOf t rest
  | .clear _ :: rest => pushesOf t rest
  | .clearAll :: rest => pushesOf t rest

/-- Whether an operation clears the queue of type `t` (either
`clear::<t>()` or `clear_all()`). -/
def clearsType (t : κ) : BusOp κ V → Prop
  | .push _ _ => False
  | .clear t' => t' = t
  | .clearAll => True

instance (t : κ) (op : BusOp κ V) : Decidable (clearsType t op) := by
  cases op <;> simp [clearsType] <;> infer_instance

end MessageBus

/-! ## Scene manager (src/core/scene/scene_manager.rs)

A registered scene's only observable attribute for stack semantics is its
`is_transparent()` capability, so the `HashMap<S, Box<dyn Scene<S>>>` is
modelled as a partial function from keys to that flag.  The stack is a
`Vec<S>` with the top at the end. -/

/-- Scene stack operations (enum `SceneTransition<K>`). -/
inductive SceneTransition (K : Type) where
  | Push (key : K)
  | Remove (key : K)
  | Replace (old_key new_key : K)
  | Clear
  | Empty
  deriving DecidableEq, Repr

/-- Manages scene lifecycle and stack-based scene switching (struct
`SceneManager<S>`): `scenes k = some b` means a scene is registered under
`k` whose `is_transparent()` returns `b`. -/
structure SceneManager (K : Type) where
  scenes : K → Option Bool
  stack : List K

namespace SceneManager

variable {K : Type} [DecidableEq K]

/-- Rust `SceneManager::new()`. -/
def new : SceneManager K := ⟨fun _ => none, []⟩

/-- Rust `SceneManager::register_scene()`: stores under key, overwriting a
prior registration. -/
def register_scene (m : SceneManager K) (key : K) (transparent : Bool) :
    SceneManager K :=
  { m with scenes := Function.update m.scenes key (some transparent) }

/-- Rust `SceneManager::register_default()`: register, then append to the
stack unless already present. -/
def register_default (m : SceneManager K) (key : K) (transparent : Bool) :
    SceneManager K :=
  let m' := m.register_scene key transparent
  if key ∈ m'.stack then m' else { m' with stack := m'.stack ++ [key] }

/-- Rust `SceneManager::push_internal()`: warn-and-drop if the key is already
stacked or unregistered, else append. -/
def push_internal (m : SceneManager K) (key : K) : SceneManager K :=
  if key ∈ m.stack then m
  else if m.scenes key = none then m
  else { m with stack := m.stack ++ [key] }

/-- Remove the first occurrence of `key` (`Vec::remove` at
`iter().position(..)` in the source). -/
def eraseFirst : List K → K → List K
  | [], _ => []
  | x :: xs, key => if x = key then xs else x :: eraseFirst xs key

/-- Rust `SceneManager::remove_internal()`: remove wherever positioned,
debug-log-and-drop if absent. -/
def remove_internal (m : SceneManager K) (key : K) : SceneManager K :=
  if key ∈ m.stack then { m with stack := eraseFirst m.stack key } else m

/-- Replace the first occurrence of `old_key` in place
(`self.stack[pos] = new_key` in the source). -/
def replaceFirst : List K → K → K → List K
  | [], _, _ => []
  | x :: xs, old_key, new_key =>
      if x = old_key then new_key :: xs else x :: replaceFirst xs old_key new_key

/-- Rust `SceneManager::replace_internal()`: warn-and-drop if `old_key` is
absent, `new_key` already stacked, or `new_key` unregistered; else splice
`new_key` into `old_key`'s position. -/
def replace_internal (m : SceneManager K) (old_key new_key : K) :
    SceneManager K :=
  if old_key ∉ m.stack then m
  else if new_key ∈ m.stack then m
  else if m.scenes new_key = none then m
  else { m with stack := replaceFirst m.stack old_key new_key }

/-- Rust `SceneManager::clear_internal()`: empty the stack. -/
def clear_internal (m : SceneManager K) : SceneManager K :=
  { m with stack := [] }

/-- The stack-mutating requests a host or a scene can issue: the two
registration calls plus the five transition variants processed in FIFO
order by `process_transitions()`. -/
inductive SceneOp (K : Type) where
  | RegisterScene (key : K) (transparent : Bool)
  | RegisterDefault (key : K) (transparent : Bool)
  | Push (key : K)
  | Remove (key : K)
  | Replace (old_key new_key : K)
  | Clear
  | Empty

/-- Apply one request (`process_transitions()` dispatch plus the two
registration entry points). -/
def applyOp (m : SceneManager K) : SceneOp K → SceneManager K
  | .RegisterScene key transparent => m.register_scene key transparent
  | .RegisterDefault key transparent => m.register_default key transparent
  | .Push key => m.push_internal key
  | .Remove key => m.remove_internal key
  | .Replace old_key new_key => m.replace_internal old_key new_key
  | .Clear => m.clear_internal
  | .Empty => m

/-- Apply a sequence of requests, oldest first. -/
def applyOps (m : SceneManager K) (ops : List (SceneOp K)) : SceneManager K :=
  ops.foldl applyOp m

/-- The scene-stack invariant from the data model: no key twice in the
stack, and every stacked key registered. -/
def Inv (m : SceneManager K) : Prop :=
  m.stack.Nodup ∧ ∀ k ∈ m.stack, (m.scenes k).isSome

/-- Rust `SceneManager::collect_active_scenes()` inner loop: iterate the
stack top-down (the argument is the reversed stack, top first),
collecting each key and stopping after the first key whose registered
scene is opaque (an unregistered key never breaks the loop, mirroring
the `if let Some(scene)` guard). -/
def collectActiveAux (scenes : K → Option Bool) : List K → List K
  | [] => []
  | key :: rest =>
      match scenes key with
      | some transparent =>
          if transparent then key :: collectActiveAux scenes rest else [key]
      | none => key :: collectActiveAux scenes rest

/-- Rust `SceneManager::collect_active_scenes()`: the active window of the
stack in bottom-to-top order (`active.insert(0, key)` builds it in stack
order while the iteration runs top-down). -/
def collect_active_scenes (m : SceneManager K) : List K :=
  (collectActiveAux m.scenes m.stack.reverse).reverse

/-- The keys whose scenes `SceneManager::update()` invokes `update` on,
in invocation order: nothing on an empty stack, else
`collect_active_scenes` filtered by `update_scenes`'s
`if let Some(scene) = self.scenes.get_mut(&key)` guard. -/
def updateTrace (m : SceneManager K) : List K :=
  if m.stack = [] then []
  else (m.collect_active_scenes).filter fun k => (m.scenes k).isSome

end SceneManager

/-! ## System-update phase (src/core/globals/global_systems.rs)

`GlobalSystems::update` step 2 clears the action type's queue and then
pushes each action produced by `InputSystem::actions()` for this tick.
The engine-level bus carries (at least) the game's action type and the
scene-transition type, modelled by a two-tag partition. -/

/-- The message kinds the engine itself routes through the bus. -/
inductive EngineTag where
  | action
  | sceneTransition
  deriving DecidableEq

/-- Payload family for `EngineTag`. -/
def EngineMsg (A K : Type) : EngineTag → Type
  | .action => A
  | .sceneTransition => SceneTransition K

/-- Modelled from the spec: `InputSystem<A>::actions()` is declared and
consumed in `src/` (global_systems.rs) but its definition is not among
the source files; per the spec it yields "the union of actions resolved
from the tick's pressed discrete events", i.e. each pressed key and
button of the tick mapped through the active context's exact-match
bindings.  The pressed sets are supplied in iteration order. -/
def resolvedActions {A : Type} (mapper : ActionMapper A)
    (pressedKeys : List (KeyCode × Modifiers))
    (pressedButtons : List (MouseButton × Modifiers)) : List A :=
  (pressedKeys.filterMap fun p => mapper.map_key p.1 p.2) ++
    (pressedButtons.filterMap fun p => mapper.map_button p.1 p.2)

/-- Rust `GlobalSystems::update` step 2 (src lines 81-85): clear the previous
tick's actions, then push each of this tick's resolved actions. -/
def publishActions {A K : Type} (bus : MessageBus EngineTag (EngineMsg A K))
    (actions : List A) : MessageBus EngineTag (EngineMsg A K) :=
  actions.foldl (fun b a => b.push .action a) (bus.clear .action)

/-! ## Event collector (src/core/platform_bridge/event_collector.rs) -/

/-- Cross-thread event envelope (enum `PlatformEvent`,
src/core/platform_bridge): one `Inputs` message per platform cycle,
or the explicit shutdown signal. -/
inductive PlatformEvent where
  | Inputs (discrete continuous : List InputEvent)
  | WindowClosed
  deriving DecidableEq, Repr

/-- Update loop control signal (enum `TickControl`). -/
inductive TickControl where
  | Continue
  | Exit
  deriving DecidableEq, Repr

/-- The consumer-visible state of the crossbeam channel at the start of
`collect_frame()`: the buffered events in arrival order, and whether the
producer side has been dropped.  `try_recv()` yields the buffered events
first and reports `Disconnected` only once the buffer is empty, matching
crossbeam's semantics. -/
structure Channel where
  pending : List PlatformEvent
  disconnected : Bool

namespace EventCollector

/-- Rust `EventCollector::handle_event()` acting on the accumulated batches:
non-empty discrete and continuous batches are appended; `WindowClosed`
signals exit. -/
def handleEvent (batches : List (List InputEvent)) (event : PlatformEvent) :
    TickControl × List (List InputEvent) :=
  match event with
  | .Inputs discrete continuous =>
      (.Continue,
        batches ++ (if discrete = [] then [] else [discrete]) ++
          (if continuous = [] then [] else [continuous]))
  | .WindowClosed => (.Exit, batches)

/-- The `while drained < MAX_EVENTS_PER_FRAME` loop of
`collect_frame()`: `budget` is the number of events that may still be
drained this call.  Timing effects (idle sleep, backlog warning) have no
bearing on the returned value and are not modelled. -/
def collectLoop (budget : ℕ) (batches : List (List InputEvent))
    (ch : Channel) : TickControl × List (List InputEvent) :=
  match budget, ch.pending with
  | 0, _ => (.Continue, batches)
  | _ + 1, [] =>
      if ch.disconnected then (.Exit, batches) else (.Continue, batches)
  | budget + 1, event :: rest =>
      match handleEvent batches event with
      | (.Exit, batches') => (.Exit, batches')
      | (.Continue, batches') =>
          collectLoop budget batches' ⟨rest, ch.disconnected⟩

/-- The per-tick hard cap (`MAX_EVENTS_PER_FRAME`). -/
def MAX_EVENTS_PER_FRAME : ℕ := 100

/-- Rust `EventCollector::collect_frame()`: clears the previous batches, then
drains up to the cap. -/
def collect_frame (ch : Channel) : TickControl × List (List InputEvent) :=
  collectLoop MAX_EVENTS_PER_FRAME [] ch

/-- The batches a list of platform events contributes (the non-empty
discrete and continuous vectors, in order). -/
def eventBatches : List PlatformEvent → List (List InputEvent)
  | [] => []
  | .Inputs discrete continuous :: rest =>
      ((if discrete = [] then [] else [discrete]) ++
        (if continuous = [] then [] else [continuous])) ++ eventBatches rest
  | .WindowClosed :: rest => eventBatches rest

end EventCollector

/-! ## Spec-side characterisations

Definitions below this point are written from the specification's words,
to be compared with the source-derived definitions above: the per-key
transition predicates of §8 ("pressed ⇔ at least one not-held→held
transition occurred ...") and §4.5's description of the active window
("every transparent scene encountered plus the first opaque scene
(inclusive)"). -/

namespace KeySeq

/-- An arbitrary within-tick event sequence for one fixed key: each
entry is `(isDown, modifiers)`; `true` encodes `KeyDown`, `false`
encodes `KeyUp`. -/
def toEvents (key : KeyCode) (seq : List (Bool × Modifiers)) :
    List InputEvent :=
  seq.map fun p =>
    match p with
    | (true, mods) => .KeyDown key mods
    | (false, mods) => .KeyUp key mods

/-- The corresponding sequence for one fixed mouse button. -/
def toButtonEvents (btn : MouseButton) (seq : List (Bool × Modifiers)) :
    List InputEvent :=
  seq.map fun p =>
    match p with
    | (true, mods) => .MouseButtonDown btn mods
    | (false, mods) => .MouseButtonUp btn mods

/-- Held state of the key after the sequence: a Down event leaves it
held, an Up event leaves it not held, no event leaves it unchanged. -/
def heldAfter (held : Bool) : List Bool → Bool
  | [] => held
  | d :: rest => heldAfter d rest

/-- Spec predicate: at least one not-held→held transition occurs while
processing the sequence from initial held state `held`. -/
def hasPressTransition (held : Bool) : List Bool → Bool
  | [] => false
  | d :: rest => (d && !held) || hasPressTransition d rest

/-- Spec predicate: at least one held→not-held transition occurs. -/
def hasReleaseTransition (held : Bool) : List Bool → Bool
  | [] => false
  | d :: rest => (!d && held) || hasReleaseTransition d rest

end KeySeq

namespace SceneManager

/-- Spec-side active window (§4.5 `update()`): given the stack top
first, every leading transparent scene plus the first opaque scene,
inclusive; written for stacks all of whose keys are registered. -/
def specWindowTopDown (scenes : K → Option Bool) (stackTopFirst : List K) :
    List K :=
  (stackTopFirst.takeWhile fun k => scenes k = some true) ++
    (stackTopFirst.dropWhile fun k => scenes k = some true).take 1

end SceneManager

/-! ## Theorems -/

namespace StateTracker

theorem process_events_nil (t : StateTracker) : t.process_events [] = t := rfl

theorem process_events_cons (t : StateTracker) (e : InputEvent)
    (es : List InputEvent) :
    t.process_events (e :: es) = (t.process_event e).process_events es := rfl

/-- No event touches the `last_mouse_position` snapshot. -/
theorem process_event_last_mouse_position (t : StateTracker) (e : InputEvent) :
    (t.process_event e).last_mouse_position = t.last_mouse_position := by
  cases e <;> simp only [process_event] <;> split <;> rfl

theorem process_events_last_mouse_position (t : StateTracker)
    (es : List InputEvent) :
    (t.process_events es).last_mouse_position = t.last_mouse_position := by
  induction es generalizing t with
  | nil => rfl
  | cons e es ih =>
      rw [process_events_cons, ih, process_event_last_mouse_position]

/-- Only `MouseMoved` touches the mouse position. -/
theorem process_event_mouse_position (t : StateTracker) (e : InputEvent)
    (h : ∀ x y, e ≠ .MouseMoved x y) :
    (t.process_event e).mouse_position = t.mouse_position := by
  cases e with
  | MouseMoved x y => exact absurd rfl (h x y)
  | _ => simp only [process_event] <;> split <;> rfl

theorem process_events_mouse_position (t : StateTracker)
    (es : List InputEvent) (h : ∀ x y, InputEvent.MouseMoved x y ∉ es) :
    (t.process_events es).mouse_position = t.mouse_position := by
  induction es generalizing t with
  | nil => rfl
  | cons e es ih =>
      rw [process_events_cons]
      rw [ih _ fun x y hx => h x y (List.mem_cons_of_mem _ hx)]
      exact process_event_mouse_position t e
        fun x y he => h x y (he ▸ List.mem_cons_self _ _)

end StateTracker

/-- C3: after a tick run as `clear()`, then `process_events` over a
batch with no `MouseMoved` event, then `finalize_frame()`, the mouse
delta is `(0, 0)`; and in general after `finalize_frame()` the mouse
delta equals the mouse position reached by the tick's events minus the
position snapshotted by `clear()` at tick start. -/
theorem mouse_delta_correct (t : StateTracker) (events : List InputEvent) :
    ((t.tick events).mouse_delta =
      ((t.clear.process_events events).mouse_position.1 - t.mouse_position.1,
       (t.clear.process_events events).mouse_position.2 - t.mouse_position.2)) ∧
    ((∀ x y, InputEvent.MouseMoved x y ∉ events) →
      (t.tick events).mouse_delta = (0, 0)) := by
  have hlast : (t.clear.process_events events).last_mouse_position =
      t.mouse_position := by
    rw [StateTracker.process_events_last_mouse_position]; rfl
  constructor
  · show (t.clear.process_events events).finalize_frame.mouse_delta = _
    simp only [StateTracker.finalize_frame, hlast]
  · intro h
    have hpos : (t.clear.process_events events).mouse_position =
        t.mouse_position := by
      rw [StateTracker.process_events_mouse_position _ _ h]; rfl
    show (t.clear.process_events events).finalize_frame.mouse_delta = _
    simp only [StateTracker.finalize_frame, hlast, hpos, sub_self]

/-- C3 witness: a concrete tick with no mouse movement has zero delta,
and one with movement has delta equal to the final position minus the
starting one. -/
theorem mouse_delta_correct_witness :
    (StateTracker.new.tick
        [.KeyDown .KeyA Modifiers.NONE]).mouse_delta = (0, 0) :=
  (mouse_delta_correct StateTracker.new
    [.KeyDown .KeyA Modifiers.NONE]).2 (by intro x y hx; simp at hx)

namespace StateTracker

/-- Processing one event preserves the per-tick delta invariant
"pressed-and-not-released is held; released-and-not-pressed is not
held", for keys and buttons alike. -/
theorem process_event_delta_inv (t : StateTracker) (e : InputEvent)
    (h1 : ∀ k, k ∈ t.keys_pressed_this_frame →
      k ∉ t.keys_released_this_frame → k ∈ t.keys_down)
    (h2 : ∀ k, k ∈ t.keys_released_this_frame →
      k ∉ t.keys_pressed_this_frame → k ∉ t.keys_down)
    (h3 : ∀ b, b ∈ t.mouse_buttons_pressed_this_frame →
      b ∉ t.mouse_buttons_released_this_frame → b ∈ t.mouse_buttons_down)
    (h4 : ∀ b, b ∈ t.mouse_buttons_released_this_frame →
      b ∉ t.mouse_buttons_pressed_this_frame → b ∉ t.mouse_buttons_down) :
    (∀ k, k ∈ (t.process_event e).keys_pressed_this_frame →
      k ∉ (t.process_event e).keys_released_this_frame →
      k ∈ (t.process_event e).keys_down) ∧
    (∀ k, k ∈ (t.process_event e).keys_released_this_frame →
      k ∉ (t.process_event e).keys_pressed_this_frame →
      k ∉ (t.process_event e).keys_down) ∧
    (∀ b, b ∈ (t.process_event e).mouse_buttons_pressed_this_frame →
      b ∉ (t.process_event e).mouse_buttons_released_this_frame →
      b ∈ (t.process_event e).mouse_buttons_down) ∧
    (∀ b, b ∈ (t.process_event e).mouse_buttons_released_this_frame →
      b ∉ (t.process_event e).mouse_buttons_pressed_this_frame →
      b ∉ (t.process_event e).mouse_buttons_down) := by
  cases e with
  | KeyDown key mods =>
      by_cases hmem : key ∈ t.keys_down
      · simp only [process_event, if_pos hmem]
        exact ⟨h1, h2, h3, h4⟩
      · simp only [process_event, if_neg hmem]
        refine ⟨?_, ?_, h3, h4⟩
        · intro k hp hr
          rcases Finset.mem_insert.1 hp with rfl | hp'
          · exact Finset.mem_insert_self _ _
          · exact Finset.mem_insert_of_mem (h1 k hp' hr)
        · intro k hr hp hd
          have hne : k ≠ key := fun h => hp (h ▸ Finset.mem_insert_self _ _)
          have hp' : k ∉ t.keys_pressed_this_frame :=
            fun h => hp (Finset.mem_insert_of_mem h)
          rcases Finset.mem_insert.1 hd with rfl | hd'
          · exact hne rfl
          · exact h2 k hr hp' hd'
  | KeyUp key mods =>
      by_cases hmem : key ∈ t.keys_down
      · simp only [process_event, if_pos hmem]
        refine ⟨?_, ?_, h3, h4⟩
        · intro k hp hr
          have hne : k ≠ key := fun h => hr (h ▸ Finset.mem_insert_self _ _)
          have hr' : k ∉ t.keys_released_this_frame :=
            fun h => hr (Finset.mem_insert_of_mem h)
          exact Finset.mem_erase.2 ⟨hne, h1 k hp hr'⟩
        · intro k hr hp hd
          have hd' := Finset.mem_erase.1 hd
          rcases Finset.mem_insert.1 hr with rfl | hr'
          · exact hd'.1 rfl
          · exact h2 k hr' hp hd'.2
      · simp only [process_event, if_neg hmem]
        exact ⟨h1, h2, h3, h4⟩
  | MouseButtonDown btn mods =>
      by_cases hmem : btn ∈ t.mouse_buttons_down
      · simp only [process_event, if_pos hmem]
        exact ⟨h1, h2, h3, h4⟩
      · simp only [process_event, if_neg hmem]
        refine ⟨h1, h2, ?_, ?_⟩
        · intro b hp hr
          rcases Finset.mem_insert.1 hp with rfl | hp'
          · exact Finset.mem_insert_self _ _
          · exact Finset.mem_insert_of_mem (h3 b hp' hr)
        · intro b hr hp hd
          have hne : b ≠ btn := fun h => hp (h ▸ Finset.mem_insert_self _ _)
          have hp' : b ∉ t.mouse_buttons_pressed_this_frame :=
            fun h => hp (Finset.mem_insert_of_mem h)
          rcases Finset.mem_insert.1 hd with rfl | hd'
          · exact hne rfl
          · exact h4 b hr hp' hd'
  | MouseButtonUp btn mods =>
      by_cases hmem : btn ∈ t.mouse_buttons_down
      · simp only [process_event, if_pos hmem]
        refine ⟨h1, h2, ?_, ?_⟩
        · intro b hp hr
          have hne : b ≠ btn := fun h => hr (h ▸ Finset.mem_insert_self _ _)
          have hr' : b ∉ t.mouse_buttons_released_this_frame :=
            fun h => hr (Finset.mem_insert_of_mem h)
          exact Finset.mem_erase.2 ⟨hne, h3 b hp hr'⟩
        · intro b hr hp hd
          have hd' := Finset.mem_erase.1 hd
          rcases Finset.mem_insert.1 hr with rfl | hr'
          · exact hd'.1 rfl
          · exact h4 b hr' hp hd'.2
      · simp only [process_event, if_neg hmem]
        exact ⟨h1, h2, h3, h4⟩
  | MouseMoved x y => exact ⟨h1, h2, h3, h4⟩
  | Unidentified => exact ⟨h1, h2, h3, h4⟩

/-- The delta invariant propagates through a whole batch. -/
theorem process_events_delta_inv (es : List InputEvent) :
    ∀ t : StateTracker,
    (∀ k, k ∈ t.keys_pressed_this_frame →
      k ∉ t.keys_released_this_frame → k ∈ t.keys_down) →
    (∀ k, k ∈ t.keys_released_this_frame →
      k ∉ t.keys_pressed_this_frame → k ∉ t.keys_down) →
    (∀ b, b ∈ t.mouse_buttons_pressed_this_frame →
      b ∉ t.mouse_buttons_released_this_frame → b ∈ t.mouse_buttons_down) →
    (∀ b, b ∈ t.mouse_buttons_released_this_frame →
      b ∉ t.mouse_buttons_pressed_this_frame → b ∉ t.mouse_buttons_down) →
    (∀ k, k ∈ (t.process_events es).keys_pressed_this_frame →
      k ∉ (t.process_events es).keys_released_this_frame →
      k ∈ (t.process_events es).keys_down) ∧
    (∀ k, k ∈ (t.process_events es).keys_released_this_frame →
      k ∉ (t.process_events es).keys_pressed_this_frame →
      k ∉ (t.process_events es).keys_down) ∧
    (∀ b, b ∈ (t.process_events es).mouse_buttons_pressed_this_frame →
      b ∉ (t.process_events es).mouse_buttons_released_this_frame →
      b ∈ (t.process_events es).mouse_buttons_down) ∧
    (∀ b, b ∈ (t.process_events es).mouse_buttons_released_this_frame →
      b ∉ (t.process_events es).mouse_buttons_pressed_this_frame →
      b ∉ (t.process_events es).mouse_buttons_down) := by
  induction es with
  | nil => intro t h1 h2 h3 h4; exact ⟨h1, h2, h3, h4⟩
  | cons e es ih =>
      intro t h1 h2 h3 h4
      obtain ⟨g1, g2, g3, g4⟩ := t.process_event_delta_inv e h1 h2 h3 h4
      exact ih (t.process_event e) g1 g2 g3 g4

end StateTracker

/-- C1 counterexample: with the fast-tap batch `[KeyDown A, KeyUp A]`
starting from the empty tracker, `A` is in the pressed-this-tick set but
not in the held set at the end of the tick, so "pressed ⊆
held-after-tick" fails as a universal invariant. -/
theorem pressed_subset_held_counterexample :
    ¬ ((StateTracker.new.tick
          [.KeyDown .KeyA Modifiers.NONE,
           .KeyUp .KeyA Modifiers.NONE]).keys_pressed_this_frame ⊆
        (StateTracker.new.tick
          [.KeyDown .KeyA Modifiers.NONE,
           .KeyUp .KeyA Modifiers.NONE]).keys_down) := by
  decide

/-- C1 (amended): after any tick (clear, any event batch,
finalize_frame), a key or button that is pressed-this-tick and not
released-this-tick is held at the end of the tick, and one that is
released-this-tick and not pressed-this-tick is not held:
pressed \ released ⊆ held-after-tick and
(released \ pressed) ∩ held-after-tick = ∅. -/
theorem delta_sets_vs_held (t : StateTracker) (events : List InputEvent) :
    ((t.tick events).keys_pressed_this_frame \
        (t.tick events).keys_released_this_frame ⊆ (t.tick events).keys_down) ∧
    (((t.tick events).keys_released_this_frame \
        (t.tick events).keys_pressed_this_frame) ∩ (t.tick events).keys_down = ∅) ∧
    ((t.tick events).mouse_buttons_pressed_this_frame \
        (t.tick events).mouse_buttons_released_this_frame ⊆
      (t.tick events).mouse_buttons_down) ∧
    (((t.tick events).mouse_buttons_released_this_frame \
        (t.tick events).mouse_buttons_pressed_this_frame) ∩
      (t.tick events).mouse_buttons_down = ∅) := by
  obtain ⟨g1, g2, g3, g4⟩ :=
    StateTracker.process_events_delta_inv events t.clear
      (by intro k hk; exact absurd hk (Finset.not_mem_empty k))
      (by intro k hk; exact absurd hk (Finset.not_mem_empty k))
      (by intro b hb; exact absurd hb (Finset.not_mem_empty b))
      (by intro b hb; exact absurd hb (Finset.not_mem_empty b))
  refine ⟨?_, ?_, ?_, ?_⟩
  · intro k hk
    have := Finset.mem_sdiff.1 hk
    exact g1 k this.1 this.2
  · rw [Finset.eq_empty_iff_forall_not_mem]
    intro k hk
    have h := Finset.mem_inter.1 hk
    have hs := Finset.mem_sdiff.1 h.1
    exact g2 k hs.1 hs.2 h.2
  · intro b hb
    have := Finset.mem_sdiff.1 hb
    exact g3 b this.1 this.2
  · rw [Finset.eq_empty_iff_forall_not_mem]
    intro b hb
    have h := Finset.mem_inter.1 hb
    have hs := Finset.mem_sdiff.1 h.1
    exact g4 b hs.1 hs.2 h.2

namespace KeySeq

theorem key_char (k : KeyCode) (seq : List (Bool × Modifiers)) :
    ∀ t : StateTracker,
    ((k ∈ (t.process_events (toEvents k seq)).keys_down) ↔
      heldAfter (decide (k ∈ t.keys_down)) (seq.map Prod.fst) = true) ∧
    ((k ∈ (t.process_events (toEvents k seq)).keys_pressed_this_frame) ↔
      (k ∈ t.keys_pressed_this_frame ∨
        hasPressTransition (decide (k ∈ t.keys_down)) (seq.map Prod.fst) = true)) ∧
    ((k ∈ (t.process_events (toEvents k seq)).keys_released_this_frame) ↔
      (k ∈ t.keys_released_this_frame ∨
        hasReleaseTransition (decide (k ∈ t.keys_down)) (seq.map Prod.fst) = true)) := by
  induction seq with
  | nil =>
      intro t
      refine ⟨?_, ?_, ?_⟩
      · simp [toEvents, heldAfter, StateTracker.process_events]
      · simp [toEvents, hasPressTransition, StateTracker.process_events]
      · simp [toEvents, hasReleaseTransition, StateTracker.process_events]
  | cons p rest ih =>
      obtain ⟨d, m⟩ := p
      intro t
      cases d with
      | false =>
          have hev : toEvents k ((false, m) :: rest) =
              InputEvent.KeyUp k m :: toEvents k rest := rfl
          rw [hev, StateTracker.process_events_cons]
          by_cases hk : k ∈ t.keys_down
          · have ht' : t.process_event (InputEvent.KeyUp k m) =
                { t with
                  modifiers := m
                  keys_down := t.keys_down.erase k
                  keys_released_this_frame :=
                    insert k t.keys_released_this_frame } := by
              simp [StateTracker.process_event, hk]
            rw [ht']
            obtain ⟨ih1, ih2, ih3⟩ := ih
              { t with
                modifiers := m
                keys_down := t.keys_down.erase k
                keys_released_this_frame :=
                  insert k t.keys_released_this_frame }
            refine ⟨?_, ?_, ?_⟩
            · rw [ih1]
              simp [heldAfter, Finset.not_mem_erase]
            · rw [ih2]
              simp [hasPressTransition, Finset.not_mem_erase, hk]
            · rw [ih3]
              simp [hasReleaseTransition, Finset.not_mem_erase, hk]
          · have ht' : t.process_event (InputEvent.KeyUp k m) =
                { t with modifiers := m } := by
              simp [StateTracker.process_event, hk]
            rw [ht']
            obtain ⟨ih1, ih2, ih3⟩ := ih { t with modifiers := m }
            refine ⟨?_, ?_, ?_⟩
            · rw [ih1]
              simp [heldAfter, hk]
            · rw [ih2]
              simp [hasPressTransition, hk]
            · rw [ih3]
              simp [hasReleaseTransition, hk]
      | true =>
          have hev : toEvents k ((true, m) :: rest) =
              InputEvent.KeyDown k m :: toEvents k rest := rfl
          rw [hev, StateTracker.process_events_cons]
          by_cases hk : k ∈ t.keys_down
          · have ht' : t.process_event (InputEvent.KeyDown k m) =
                { t with modifiers := m } := by
              simp [StateTracker.process_event, hk]
            rw [ht']
            obtain ⟨ih1, ih2, ih3⟩ := ih { t with modifiers := m }
            refine ⟨?_, ?_, ?_⟩
            · rw [ih1]
              simp [heldAfter, hk]
            · rw [ih2]
              simp [hasPressTransition, hk]
            · rw [ih3]
              simp [hasReleaseTransition, hk]
          · have ht' : t.process_event (InputEvent.KeyDown k m) =
                { t with
                  modifiers := m
                  keys_down := insert k t.keys_down
                  keys_pressed_this_frame :=
                    insert k t.keys_pressed_this_frame } := by
              simp [StateTracker.process_event, hk]
            rw [ht']
            obtain ⟨ih1, ih2, ih3⟩ := ih
              { t with
                modifiers := m
                keys_down := insert k t.keys_down
                keys_pressed_this_frame :=
                  insert k t.keys_pressed_this_frame }
            refine ⟨?_, ?_, ?_⟩
            · rw [ih1]
              simp [heldAfter]
            · rw [ih2]
              simp [hasPressTransition, hk]
            · rw [ih3]
              simp [hasReleaseTransition, hk]

end KeySeq

/-- C2: for one key and any within-tick KeyDown/KeyUp sequence for that
key processed after `clear()`, the key is pressed-this-tick iff at least
one not-held→held transition occurred, released-this-tick iff at least
one held→not-held transition occurred, and held at the end iff the last
event was a KeyDown (so a duplicate KeyDown while held adds nothing to
pressed, a spurious KeyUp while not held adds nothing to released, and a
fast tap yields pressed, released, and not held). -/
theorem pressed_released_iff_transitions (t : StateTracker) (k : KeyCode)
    (seq : List (Bool × Modifiers)) :
    ((k ∈ (t.clear.process_events (KeySeq.toEvents k seq)).keys_pressed_this_frame) ↔
      KeySeq.hasPressTransition (decide (k ∈ t.keys_down))
        (seq.map Prod.fst) = true) ∧
    ((k ∈ (t.clear.process_events (KeySeq.toEvents k seq)).keys_released_this_frame) ↔
      KeySeq.hasReleaseTransition (decide (k ∈ t.keys_down))
        (seq.map Prod.fst) = true) ∧
    ((k ∈ (t.clear.process_events (KeySeq.toEvents k seq)).keys_down) ↔
      KeySeq.heldAfter (decide (k ∈ t.keys_down))
        (seq.map Prod.fst) = true) := by
  obtain ⟨ih1, ih2, ih3⟩ := KeySeq.key_char k seq t.clear
  refine ⟨?_, ?_, ?_⟩
  · rw [ih2]
    simp [StateTracker.clear]
  · rw [ih3]
    simp [StateTracker.clear]
  · rw [ih1]
    exact Iff.rfl

/-- C4: `map_event` resolves only `KeyDown` and `MouseButtonDown`
events (`KeyUp`, `MouseButtonUp`, `MouseMoved`, `Unidentified` always
map to `none`), and it returns `some a` exactly when a binding whose
key/button, exact modifier set, and context equal those of the event
and the currently active context stores `a`. -/
theorem map_event_characterization {A : Type} (m : ActionMapper A)
    (e : InputEvent) (a : A) :
    (m.map_event e = some a ↔
      ((∃ k mods, e = .KeyDown k mods ∧
          m.key_bindings (k, mods, m.current_context) = some a) ∨
       (∃ b mods, e = .MouseButtonDown b mods ∧
          m.mouse_bindings (b, mods, m.current_context) = some a))) ∧
    (∀ k mods, m.map_event (.KeyUp k mods) = none) ∧
    (∀ b mods, m.map_event (.MouseButtonUp b mods) = none) ∧
    (∀ x y, m.map_event (.MouseMoved x y) = none) ∧
    (m.map_event .Unidentified = none) := by
  refine ⟨?_, fun _ _ => rfl, fun _ _ => rfl, fun _ _ => rfl, rfl⟩
  cases e <;>
    simp [ActionMapper.map_event, ActionMapper.map_key,
      ActionMapper.map_button] <;>
    exact ⟨fun h => ⟨_, _, ⟨rfl, rfl⟩, h⟩,
      fun ⟨_, _, ⟨hk, hm⟩, h⟩ => hk ▸ hm ▸ h⟩

namespace MessageBus

variable {κ : Type} [DecidableEq κ] {V : κ → Type}

theorem read_push_same (b : MessageBus κ V) (t : κ) (msg : V t) :
    (b.push t msg).read t = b.read t ++ [msg] := by
  simp [push, read]

theorem read_push_ne (b : MessageBus κ V) (t t' : κ) (msg : V t)
    (h : t' ≠ t) : (b.push t msg).read t' = b.read t' := by
  simp [push, read, Function.update_noteq h]

theorem read_clear_same (b : MessageBus κ V) (t : κ) :
    (b.clear t).read t = [] := by
  simp [clear, read]

theorem read_clear_ne (b : MessageBus κ V) (t t' : κ) (h : t' ≠ t) :
    (b.clear t).read t' = b.read t' := by
  simp [clear, read, Function.update_noteq h]

theorem read_clear_all (b : MessageBus κ V) (t : κ) :
    b.clear_all.read t = [] := rfl

/-- Between two reads of type `t`, operations that never clear `t`
leave the earlier contents in place and append the pushed messages of
type `t`, in push order. -/
theorem applyOps_read_of_no_clear (t : κ) (ops : List (BusOp κ V)) :
    ∀ b : MessageBus κ V, (∀ op ∈ ops, ¬ clearsType t op) →
    (b.applyOps ops).read t = b.read t ++ pushesOf t ops := by
  induction ops with
  | nil => intro b _; simp [applyOps, pushesOf]
  | cons op rest ih =>
      intro b h
      have hop := h op (List.mem_cons_self _ _)
      have hrest : ∀ o ∈ rest, ¬ clearsType t o :=
        fun o ho => h o (List.mem_cons_of_mem _ ho)
      cases op with
      | push t' msg =>
          have hstep : b.applyOps (.push t' msg :: rest) =
              (b.push t' msg).applyOps rest := rfl
          rw [hstep, ih _ hrest]
          by_cases he : t' = t
          · subst he
            rw [read_push_same]
            simp [pushesOf]
          · rw [read_push_ne _ _ _ _ (fun hh => he hh.symm)]
            simp [pushesOf, he]
      | clear t' =>
          simp only [clearsType] at hop
          have hstep : b.applyOps (.clear t' :: rest) =
              (b.clear t').applyOps rest := rfl
          rw [hstep, ih _ hrest, read_clear_ne _ _ _ (fun hh => hop hh.symm)]
          simp [pushesOf]
      | clearAll =>
          simp only [clearsType] at hop
          exact absurd trivial hop

end MessageBus

/-- C5: a pushed message appears in every subsequent `read` of its type,
in push order, until that type is cleared (`clear` or `clear_all`);
pushing or clearing one type never changes another type's queue.  `read`
takes `&self` in the source and is modelled as a pure projection, so
repeated reads trivially return identical contents to every caller. -/
theorem bus_multi_consumer {κ : Type} [DecidableEq κ] {V : κ → Type}
    (b : MessageBus κ V) (t t' : κ) (msg : V t)
    (ops : List (MessageBus.BusOp κ V)) :
    ((b.push t msg).read t = b.read t ++ [msg]) ∧
    (t' ≠ t → (b.push t msg).read t' = b.read t') ∧
    ((b.clear t).read t = []) ∧
    (t' ≠ t → (b.clear t).read t' = b.read t') ∧
    (b.clear_all.read t = []) ∧
    ((∀ op ∈ ops, ¬ MessageBus.clearsType t op) →
      (b.applyOps ops).read t = b.read t ++ MessageBus.pushesOf t ops) :=
  ⟨MessageBus.read_push_same b t msg,
   fun h => MessageBus.read_push_ne b t t' msg h,
   MessageBus.read_clear_same b t,
   fun h => MessageBus.read_clear_ne b t t' h,
   MessageBus.read_clear_all b t,
   fun h => MessageBus.applyOps_read_of_no_clear t ops b h⟩

/-- C5 witness: on a concrete two-type bus, pushing and clearing type
`true` leaves type `false`'s queue untouched, and a push-clear-push
sequence that never clears type `true` leaves both pushed messages of
type `true` readable in push order. -/
theorem bus_multi_consumer_witness :
    (((MessageBus.new (κ := Bool) (V := fun _ => ℕ)).push true 7).read false =
        (MessageBus.new (κ := Bool) (V := fun _ => ℕ)).read false) ∧
    (((MessageBus.new (κ := Bool) (V := fun _ => ℕ)).clear true).read false =
        (MessageBus.new (κ := Bool) (V := fun _ => ℕ)).read false) ∧
    ((MessageBus.new (κ := Bool) (V := fun _ => ℕ)).applyOps
        [.push true 7, .clear false, .push true 8]).read true =
      (MessageBus.new (κ := Bool) (V := fun _ => ℕ)).read true ++
        MessageBus.pushesOf (V := fun _ => ℕ) true
          [.push true 7, .clear false, .push true 8] :=
  ⟨(bus_multi_consumer (MessageBus.new (κ := Bool) (V := fun _ => ℕ))
      true false 7 [.push true 7, .clear false, .push true 8]).2.1
      (by decide),
   (bus_multi_consumer (MessageBus.new (κ := Bool) (V := fun _ => ℕ))
      true false 7 [.push true 7, .clear false, .push true 8]).2.2.2.1
      (by decide),
   (bus_multi_consumer (MessageBus.new (κ := Bool) (V := fun _ => ℕ))
      true false 7 [.push true 7, .clear false, .push true 8]).2.2.2.2.2
      (by decide)⟩

namespace SceneManager

variable {K : Type} [DecidableEq K]

theorem mem_eraseFirst : ∀ {l : List K} {a k : K}, k ∈ eraseFirst l a → k ∈ l
  | [], _, k, h => absurd h (List.not_mem_nil k)
  | x :: xs, a, k, h => by
      by_cases hx : x = a
      · rw [eraseFirst, if_pos hx] at h
        exact List.mem_cons_of_mem _ h
      · rw [eraseFirst, if_neg hx] at h
        rcases List.mem_cons.1 h with rfl | h'
        · exact List.mem_cons_self _ _
        · exact List.mem_cons_of_mem _ (mem_eraseFirst h')

theorem nodup_eraseFirst : ∀ {l : List K} {a : K},
    l.Nodup → (eraseFirst l a).Nodup
  | [], _, _ => List.nodup_nil
  | x :: xs, a, h => by
      obtain ⟨hx, hxs⟩ := List.nodup_cons.1 h
      by_cases hxa : x = a
      · rw [eraseFirst, if_pos hxa]
        exact hxs
      · rw [eraseFirst, if_neg hxa]
        exact List.nodup_cons.2
          ⟨fun hh => hx (mem_eraseFirst hh), nodup_eraseFirst hxs⟩

theorem mem_replaceFirst : ∀ {l : List K} {o n k : K},
    k ∈ replaceFirst l o n → k = n ∨ k ∈ l
  | [], _, _, k, h => absurd h (List.not_mem_nil k)
  | x :: xs, o, n, k, h => by
      by_cases hx : x = o
      · rw [replaceFirst, if_pos hx] at h
        rcases List.mem_cons.1 h with rfl | h'
        · exact Or.inl rfl
        · exact Or.inr (List.mem_cons_of_mem _ h')
      · rw [replaceFirst, if_neg hx] at h
        rcases List.mem_cons.1 h with rfl | h'
        · exact Or.inr (List.mem_cons_self _ _)
        · rcases mem_replaceFirst h' with h'' | h''
          · exact Or.inl h''
          · exact Or.inr (List.mem_cons_of_mem _ h'')

theorem nodup_replaceFirst : ∀ {l : List K} {o n : K},
    l.Nodup → n ∉ l → (replaceFirst l o n).Nodup
  | [], _, _, _, _ => List.nodup_nil
  | x :: xs, o, n, h, hn => by
      obtain ⟨hx, hxs⟩ := List.nodup_cons.1 h
      have hnxs : n ∉ xs := fun hh => hn (List.mem_cons_of_mem _ hh)
      by_cases hxo : x = o
      · rw [replaceFirst, if_pos hxo]
        exact List.nodup_cons.2 ⟨hnxs, hxs⟩
      · rw [replaceFirst, if_neg hxo]
        refine List.nodup_cons.2 ⟨?_, nodup_replaceFirst hxs hnxs⟩
        intro hh
        rcases mem_replaceFirst hh with rfl | hh'
        · exact hn (List.mem_cons_self _ _)
        · exact hx hh'

theorem nodup_concat {l : List K} {k : K} (h1 : l.Nodup) (h2 : k ∉ l) :
    (l ++ [k]).Nodup := by
  induction l with
  | nil => simp
  | cons x xs ih =>
      obtain ⟨hx, hxs⟩ := List.nodup_cons.1 h1
      have hk : k ∉ xs := fun hh => h2 (List.mem_cons_of_mem _ hh)
      have hkx : k ≠ x := fun hh => h2 (hh ▸ List.mem_cons_self _ _)
      refine List.nodup_cons.2 ⟨?_, ih hxs hk⟩
      intro hmem
      rcases List.mem_append.1 hmem with h' | h'
      · exact hx h'
      · exact hkx (List.mem_singleton.1 h').symm

theorem register_scene_inv (m : SceneManager K) (key : K) (tr : Bool)
    (h : m.Inv) : (m.register_scene key tr).Inv := by
  obtain ⟨hnd, hreg⟩ := h
  refine ⟨hnd, ?_⟩
  intro k hk
  by_cases hkey : k = key
  · subst hkey
    simp [register_scene]
  · simp only [register_scene]
    rw [Function.update_noteq hkey]
    exact hreg k hk

theorem applyOp_inv (m : SceneManager K) (op : SceneOp K) (h : m.Inv) :
    (m.applyOp op).Inv := by
  obtain ⟨hnd, hreg⟩ := h
  cases op with
  | RegisterScene key tr => exact m.register_scene_inv key tr ⟨hnd, hreg⟩
  | RegisterDefault key tr =>
      show Inv (m.register_default key tr)
      rw [register_default]
      by_cases hmem : key ∈ (m.register_scene key tr).stack
      · rw [if_pos hmem]
        exact m.register_scene_inv key tr ⟨hnd, hreg⟩
      · rw [if_neg hmem]
        obtain ⟨hnd', hreg'⟩ := m.register_scene_inv key tr ⟨hnd, hreg⟩
        refine ⟨nodup_concat hnd' hmem, ?_⟩
        intro k hk
        rcases List.mem_append.1 hk with h' | h'
        · exact hreg' k h'
        · rw [List.mem_singleton.1 h']
          simp [register_scene]
  | Push key =>
      show Inv (m.push_internal key)
      rw [push_internal]
      by_cases hmem : key ∈ m.stack
      · rw [if_pos hmem]; exact ⟨hnd, hreg⟩
      · rw [if_neg hmem]
        by_cases hscene : m.scenes key = none
        · rw [if_pos hscene]; exact ⟨hnd, hreg⟩
        · rw [if_neg hscene]
          refine ⟨nodup_concat hnd hmem, ?_⟩
          intro k hk
          rcases List.mem_append.1 hk with h' | h'
          · exact hreg k h'
          · rw [List.mem_singleton.1 h']
            exact Option.isSome_iff_ne_none.2 hscene
  | Remove key =>
      show Inv (m.remove_internal key)
      rw [remove_internal]
      by_cases hmem : key ∈ m.stack
      · rw [if_pos hmem]
        exact ⟨nodup_eraseFirst hnd, fun k hk => hreg k (mem_eraseFirst hk)⟩
      · rw [if_neg hmem]; exact ⟨hnd, hreg⟩
  | Replace o n =>
      show Inv (m.replace_internal o n)
      rw [replace_internal]
      by_cases ho : o ∉ m.stack
      · rw [if_pos ho]; exact ⟨hnd, hreg⟩
      · rw [if_neg ho]
        by_cases hn : n ∈ m.stack
        · rw [if_pos hn]; exact ⟨hnd, hreg⟩
        · rw [if_neg hn]
          by_cases hs : m.scenes n = none
          · rw [if_pos hs]; exact ⟨hnd, hreg⟩
          · rw [if_neg hs]
            refine ⟨nodup_replaceFirst hnd hn, ?_⟩
            intro k hk
            rcases mem_replaceFirst hk with rfl | hk'
            · exact Option.isSome_iff_ne_none.2 hs
            · exact hreg k hk'
  | Clear =>
      exact ⟨List.nodup_nil, fun k hk => absurd hk (List.not_mem_nil k)⟩
  | Empty => exact ⟨hnd, hreg⟩

theorem applyOps_inv (ops : List (SceneOp K)) :
    ∀ m : SceneManager K, m.Inv → (m.applyOps ops).Inv := by
  induction ops with
  | nil => exact fun m h => h
  | cons op rest ih =>
      intro m h
      exact ih (m.applyOp op) (m.applyOp_inv op h)

theorem new_inv : (new : SceneManager K).Inv :=
  ⟨List.nodup_nil, fun k hk => absurd hk (List.not_mem_nil k)⟩

end SceneManager

/-- C6: every state reachable from a fresh manager by registrations and
processed transitions keeps the stack duplicate-free with every stacked
key registered; a Push of an already-stacked key returns the state
unchanged (idempotent, stack length and order included), and each
invalid transition (unregistered push, absent remove, invalid replace)
leaves the manager exactly as it was. -/
theorem scene_stack_invariant (K : Type) [DecidableEq K] :
    (∀ ops : List (SceneManager.SceneOp K),
      (SceneManager.applyOps SceneManager.new ops).Inv) ∧
    (∀ (m : SceneManager K) (k : K), k ∈ m.stack → m.push_internal k = m) ∧
    (∀ (m : SceneManager K) (k : K), k ∉ m.stack → m.scenes k = none →
      m.push_internal k = m) ∧
    (∀ (m : SceneManager K) (k : K), k ∉ m.stack → m.remove_internal k = m) ∧
    (∀ (m : SceneManager K) (o n : K),
      o ∉ m.stack ∨ n ∈ m.stack ∨ m.scenes n = none →
      m.replace_internal o n = m) := by
  refine ⟨fun ops => SceneManager.applyOps_inv ops _ SceneManager.new_inv,
    ?_, ?_, ?_, ?_⟩
  · intro m k h
    rw [SceneManager.push_internal, if_pos h]
  · intro m k h hs
    rw [SceneManager.push_internal, if_neg h, if_pos hs]
  · intro m k h
    rw [SceneManager.remove_internal, if_neg h]
  · intro m o n h
    rw [SceneManager.replace_internal]
    rcases h with h | h | h
    · rw [if_pos h]
    · by_cases ho : o ∉ m.stack
      · rw [if_pos ho]
      · rw [if_neg ho, if_pos h]
    · by_cases ho : o ∉ m.stack
      · rw [if_pos ho]
      · rw [if_neg ho]
        by_cases hn : n ∈ m.stack
        · rw [if_pos hn]
        · rw [if_neg hn, if_pos h]

/-- C6 witness: a concrete run (register 0, push 0, push 0 again, push
the unregistered 1) satisfies the invariant, and on a concrete manager
with stack `[0]` the duplicate push, the unregistered push, the absent
remove and the invalid replace are all exact no-ops. -/
theorem scene_stack_invariant_witness :
    (SceneManager.applyOps SceneManager.new
      [.RegisterScene 0 false, .Push 0, .Push 0, .Push 1]).Inv ∧
    (SceneManager.push_internal
        ⟨fun n => if n = 0 then some false else none, [0]⟩ 0 =
      ⟨fun n => if n = 0 then some false else none, [0]⟩) ∧
    (SceneManager.push_internal
        ⟨fun n => if n = 0 then some false else none, [0]⟩ 1 =
      ⟨fun n => if n = 0 then some false else none, [0]⟩) ∧
    (SceneManager.remove_internal
        ⟨fun n => if n = 0 then some false else none, [0]⟩ 1 =
      ⟨fun n => if n = 0 then some false else none, [0]⟩) ∧
    (SceneManager.replace_internal
        ⟨fun n => if n = 0 then some false else none, [0]⟩ 5 0 =
      ⟨fun n => if n = 0 then some false else none, [0]⟩) :=
  ⟨(scene_stack_invariant ℕ).1
      [.RegisterScene 0 false, .Push 0, .Push 0, .Push 1],
   (scene_stack_invariant ℕ).2.1
      ⟨fun n => if n = 0 then some false else none, [0]⟩ 0 (by decide),
   (scene_stack_invariant ℕ).2.2.1
      ⟨fun n => if n = 0 then some false else none, [0]⟩ 1 (by decide) rfl,
   (scene_stack_invariant ℕ).2.2.2.1
      ⟨fun n => if n = 0 then some false else none, [0]⟩ 1 (by decide),
   (scene_stack_invariant ℕ).2.2.2.2
      ⟨fun n => if n = 0 then some false else none, [0]⟩ 5 0
      (Or.inl (by decide))⟩

namespace SceneManager

variable {K : Type} [DecidableEq K]

theorem mem_collectActiveAux {scenes : K → Option Bool} :
    ∀ {l : List K} {k : K}, k ∈ collectActiveAux scenes l → k ∈ l
  | [], k, h => absurd h (List.not_mem_nil k)
  | x :: xs, k, h => by
      cases hx : scenes x with
      | some transparent =>
          cases transparent with
          | true =>
              simp only [collectActiveAux, hx, if_true] at h
              rcases List.mem_cons.1 h with rfl | h'
              · exact List.mem_cons_self _ _
              · exact List.mem_cons_of_mem _ (mem_collectActiveAux h')
          | false =>
              simp only [collectActiveAux, hx, Bool.false_eq_true,
                if_false] at h
              rw [List.mem_singleton.1 h]
              exact List.mem_cons_self _ _
      | none =>
          simp only [collectActiveAux, hx] at h
          rcases List.mem_cons.1 h with rfl | h'
          · exact List.mem_cons_self _ _
          · exact List.mem_cons_of_mem _ (mem_collectActiveAux h')

theorem collectActiveAux_eq_specWindow {scenes : K → Option Bool} :
    ∀ {l : List K}, (∀ k ∈ l, (scenes k).isSome) →
    collectActiveAux scenes l = specWindowTopDown scenes l
  | [], _ => by simp [collectActiveAux, specWindowTopDown]
  | x :: xs, h => by
      obtain ⟨t, ht⟩ :=
        Option.isSome_iff_exists.1 (h x (List.mem_cons_self _ _))
      have hxs : ∀ k ∈ xs, (scenes k).isSome :=
        fun k hk => h k (List.mem_cons_of_mem _ hk)
      cases t with
      | true =>
          simp only [collectActiveAux, ht, if_true,
            collectActiveAux_eq_specWindow hxs]
          simp [specWindowTopDown, List.takeWhile_cons, List.dropWhile_cons, ht]
      | false =>
          simp only [collectActiveAux, ht, Bool.false_eq_true, if_false]
          simp [specWindowTopDown, List.takeWhile_cons, List.dropWhile_cons, ht]

theorem updateTrace_eq_specWindow (m : SceneManager K)
    (hreg : ∀ k ∈ m.stack, (m.scenes k).isSome) :
    m.updateTrace = (specWindowTopDown m.scenes m.stack.reverse).reverse := by
  rw [updateTrace]
  by_cases hs : m.stack = []
  · rw [if_pos hs, hs]
    simp [specWindowTopDown]
  · rw [if_neg hs]
    have hfil : (m.collect_active_scenes).filter
        (fun k => (m.scenes k).isSome) = m.collect_active_scenes := by
      refine List.filter_eq_self.2 ?_
      intro a ha
      have h1 : a ∈ collectActiveAux m.scenes m.stack.reverse :=
        List.mem_reverse.1 ha
      have h2 : a ∈ m.stack := List.mem_reverse.1 (mem_collectActiveAux h1)
      exact hreg a h2
    rw [hfil, collect_active_scenes,
      collectActiveAux_eq_specWindow
        (fun k hk => hreg k (List.mem_reverse.1 hk))]

end SceneManager

/-- C7: on a stack whose keys are all registered (the invariant of every
reachable state), the scenes `SceneManager::update` invokes are exactly
the scenes found by scanning the stack top-down through every
consecutive transparent scene plus the first opaque scene encountered
(inclusive) and none below it; an empty stack updates no scene at all. -/
theorem update_active_window (K : Type) [DecidableEq K]
    (m : SceneManager K) (hreg : ∀ k ∈ m.stack, (m.scenes k).isSome) :
    (∀ k, k ∈ m.updateTrace ↔
      k ∈ SceneManager.specWindowTopDown m.scenes m.stack.reverse) ∧
    (m.stack = [] → m.updateTrace = []) := by
  constructor
  · intro k
    rw [SceneManager.updateTrace_eq_specWindow m hreg]
    exact List.mem_reverse
  · intro hs
    rw [SceneManager.updateTrace, if_pos hs]

/-- C7 witness: Scenario D — stack `[0, 1]` with opaque `0` below
transparent `1` (the top): the update set is exactly the spec's top-down
window; and an empty stack yields no updates. -/
theorem update_active_window_witness :
    (0 ∈ (SceneManager.updateTrace
        ⟨fun n => if n = 0 then some false
            else if n = 1 then some true else none, [0, 1]⟩) ↔
      0 ∈ SceneManager.specWindowTopDown
        (fun n : ℕ => if n = 0 then some false
            else if n = 1 then some true else none) ([0, 1] : List ℕ).reverse) ∧
    (SceneManager.updateTrace
        ⟨fun n : ℕ => if n = 0 then some false
            else if n = 1 then some true else none, []⟩ = []) :=
  ⟨(update_active_window ℕ
      ⟨fun n => if n = 0 then some false
          else if n = 1 then some true else none, [0, 1]⟩
      (by decide)).1 0,
   (update_active_window ℕ
      ⟨fun n => if n = 0 then some false
          else if n = 1 then some true else none, []⟩
      (by decide)).2 rfl⟩

/-- C10: within the active window the update order is bottom-to-top
stack order — the trace of invoked scenes equals the reverse of the
top-down scan, so the deepest included (first opaque) scene updates
first and the topmost scene last, deterministically in the stack. -/
theorem update_order_bottom_to_top (K : Type) [DecidableEq K]
    (m : SceneManager K) (hreg : ∀ k ∈ m.stack, (m.scenes k).isSome) :
    m.updateTrace =
      (SceneManager.specWindowTopDown m.scenes m.stack.reverse).reverse :=
  SceneManager.updateTrace_eq_specWindow m hreg

/-- C10 witness: Scenario D's stack `[0, 1]` (opaque `0` below
transparent top `1`) updates `0` first and `1` last: the trace is the
reverse of the top-down scan `[1, 0]`. -/
theorem update_order_bottom_to_top_witness :
    SceneManager.updateTrace
        ⟨fun n : ℕ => if n = 0 then some false
            else if n = 1 then some true else none, [0, 1]⟩ =
      (SceneManager.specWindowTopDown
        (fun n : ℕ => if n = 0 then some false
            else if n = 1 then some true else none)
        ([0, 1] : List ℕ).reverse).reverse :=
  update_order_bottom_to_top ℕ
    ⟨fun n => if n = 0 then some false
        else if n = 1 then some true else none, [0, 1]⟩
    (by decide)

namespace MessageBus

theorem read_pushList_same {κ : Type} [DecidableEq κ] {V : κ → Type}
    (t : κ) (l : List (V t)) :
    ∀ b : MessageBus κ V,
      (l.foldl (fun b v => b.push t v) b).read t = b.read t ++ l := by
  induction l with
  | nil => intro b; simp
  | cons v vs ih =>
      intro b
      rw [List.foldl_cons, ih (b.push t v), read_push_same]
      simp

theorem read_pushList_ne {κ : Type} [DecidableEq κ] {V : κ → Type}
    (t t' : κ) (l : List (V t)) (h : t' ≠ t) :
    ∀ b : MessageBus κ V,
      (l.foldl (fun b v => b.push t v) b).read t' = b.read t' := by
  induction l with
  | nil => intro b; rfl
  | cons v vs ih =>
      intro b
      rw [List.foldl_cons, ih (b.push t v), read_push_ne _ _ _ _ h]

end MessageBus

/-- C8: the system-update phase's input step clears the action type's
queue and only then publishes the actions resolved from this tick's
pressed discrete events, so afterwards the bus's action queue holds
exactly this tick's resolved actions — never stale ones — whatever the
bus held before, and the other queues are untouched. -/
theorem actions_published_fresh {A K : Type}
    (bus : MessageBus EngineTag (EngineMsg A K)) (mapper : ActionMapper A)
    (pressedKeys : List (KeyCode × Modifiers))
    (pressedButtons : List (MouseButton × Modifiers)) :
    ((publishActions bus
        (resolvedActions mapper pressedKeys pressedButtons)).read .action =
      resolvedActions mapper pressedKeys pressedButtons) ∧
    ((publishActions bus
        (resolvedActions mapper pressedKeys pressedButtons)).read
          .sceneTransition =
      bus.read .sceneTransition) := by
  constructor
  · rw [publishActions, MessageBus.read_pushList_same,
      MessageBus.read_clear_same]
    rfl
  · rw [publishActions,
      MessageBus.read_pushList_ne _ _ _ (by intro h; cases h),
      MessageBus.read_clear_ne _ _ _ (by intro h; cases h)]

namespace EventCollector

theorem collectLoop_exit_iff :
    ∀ (budget : ℕ) (bs : List (List InputEvent)) (ch : Channel),
    ((collectLoop budget bs ch).1 = .Exit ↔
      (PlatformEvent.WindowClosed ∈ ch.pending.take budget ∨
        (ch.pending.length < budget ∧ ch.disconnected = true))) := by
  intro budget
  induction budget with
  | zero =>
      intro bs ch
      simp [collectLoop]
  | succ n ih =>
      intro bs ch
      obtain ⟨pending, disc⟩ := ch
      cases pending with
      | nil =>
          cases disc <;> simp [collectLoop]
      | cons e rest =>
          cases e with
          | WindowClosed => simp [collectLoop, handleEvent]
          | Inputs d c =>
              have hstep : collectLoop (n + 1) bs ⟨.Inputs d c :: rest, disc⟩ =
                  collectLoop n
                    (bs ++ (if d = [] then [] else [d]) ++
                      (if c = [] then [] else [c]))
                    ⟨rest, disc⟩ := by
                simp [collectLoop, handleEvent]
              rw [hstep, ih]
              simp [Nat.succ_lt_succ_iff]

theorem collectLoop_continue_batches :
    ∀ (budget : ℕ) (bs : List (List InputEvent)) (ch : Channel),
    (∀ x ∈ ch.pending.take budget, x ≠ PlatformEvent.WindowClosed) →
    (budget ≤ ch.pending.length ∨ ch.disconnected = false) →
    collectLoop budget bs ch =
      (.Continue, bs ++ eventBatches (ch.pending.take budget)) := by
  intro budget
  induction budget with
  | zero =>
      intro bs ch _ _
      simp [collectLoop, eventBatches]
  | succ n ih =>
      intro bs ch h1 h2
      obtain ⟨pending, disc⟩ := ch
      cases pending with
      | nil =>
          rcases h2 with h2 | h2
          · exact absurd h2 (by simp)
          · subst h2
            simp [collectLoop, eventBatches]
      | cons e rest =>
          cases e with
          | WindowClosed =>
              exact absurd rfl
                (h1 _ (by simp [List.take_cons]))
          | Inputs d c =>
              have hstep : collectLoop (n + 1) bs ⟨.Inputs d c :: rest, disc⟩ =
                  collectLoop n
                    (bs ++ (if d = [] then [] else [d]) ++
                      (if c = [] then [] else [c]))
                    ⟨rest, disc⟩ := by
                simp [collectLoop, handleEvent]
              have h1' : ∀ x ∈ rest.take n, x ≠ PlatformEvent.WindowClosed :=
                fun x hx => h1 x (by simp [List.take_cons, hx])
              have h2' : n ≤ rest.length ∨ disc = false := by
                rcases h2 with h2 | h2
                · exact Or.inl (Nat.succ_le_succ_iff.1 (by simpa using h2))
                · exact Or.inr h2
              rw [hstep, ih _ _ h1' h2']
              simp [eventBatches, List.take_cons]

end EventCollector

/-- C9: `collect_frame` returns `Exit` iff, while draining this call, it
handles an explicit shutdown event (`WindowClosed` among the at most 100
events drained) or observes the producer disconnect (buffer exhausted
below the cap with the producer gone); in every other case — empty
channel, or any number of `Inputs` events up to the per-tick cap — it
returns `Continue` together with the collected batches. -/
theorem collect_frame_exit_iff (ch : Channel) :
    ((EventCollector.collect_frame ch).1 = .Exit ↔
      (PlatformEvent.WindowClosed ∈
          ch.pending.take EventCollector.MAX_EVENTS_PER_FRAME ∨
        (ch.pending.length < EventCollector.MAX_EVENTS_PER_FRAME ∧
          ch.disconnected = true))) ∧
    ((∀ x ∈ ch.pending.take EventCollector.MAX_EVENTS_PER_FRAME,
        x ≠ PlatformEvent.WindowClosed) →
      (EventCollector.MAX_EVENTS_PER_FRAME ≤ ch.pending.length ∨
        ch.disconnected = false) →
      EventCollector.collect_frame ch =
        (.Continue, EventCollector.eventBatches
          (ch.pending.take EventCollector.MAX_EVENTS_PER_FRAME))) := by
  constructor
  · exact EventCollector.collectLoop_exit_iff
      EventCollector.MAX_EVENTS_PER_FRAME [] ch
  · intro h1 h2
    rw [EventCollector.collect_frame,
      EventCollector.collectLoop_continue_batches
        EventCollector.MAX_EVENTS_PER_FRAME [] ch h1 h2]
    simp

/-- C9 witness: a channel holding one `Inputs` event with a live
producer yields `Continue` with exactly that event's discrete batch;
a channel holding only `WindowClosed` yields `Exit`, as does an empty
disconnected channel. -/
theorem collect_frame_exit_iff_witness :
    (EventCollector.collect_frame
        ⟨[.Inputs [.KeyDown .Space Modifiers.NONE] []], false⟩ =
      (.Continue, EventCollector.eventBatches
        (([.Inputs [.KeyDown .Space Modifiers.NONE] []] :
            List PlatformEvent).take EventCollector.MAX_EVENTS_PER_FRAME))) ∧
    ((EventCollector.collect_frame ⟨[.WindowClosed], false⟩).1 = .Exit) ∧
    ((EventCollector.collect_frame ⟨[], true⟩).1 = .Exit) :=
  ⟨(collect_frame_exit_iff
      ⟨[.Inputs [.KeyDown .Space Modifiers.NONE] []], false⟩).2
      (by decide) (Or.inr rfl),
   (collect_frame_exit_iff ⟨[.WindowClosed], false⟩).1.2
      (Or.inl (by decide)),
   (collect_frame_exit_iff ⟨[], true⟩).1.2
      (Or.inr (by decide))⟩
